import Mathlib

/-!
Verification development for the PDF outline-extraction heuristics of
`process_pdfs.py`.  The Python functions are shallow-embedded over
`List Char` (Python `str`) and `ℚ` (Python floats: all comparisons the
claims touch are far from binary-rounding boundaries, so exact rational
arithmetic is a faithful model).  Dictionaries whose key sets differ
between code paths are modelled with `Option` fields.
-/

/-! ## Python string primitives (partial model restricted to the characters
this development manipulates) -/

/-- Whitespace as recognised by Python `str.strip`, `str.split` and the
regex class `\s` on `str` patterns (partial model: the common ASCII
whitespace characters plus NEL and NBSP). -/
def isWsChar (c : Char) : Bool :=
  c == ' ' || c == '\t' || c == '\n' || c == '\r' || c == '\x0b' || c == '\x0c' ||
  c == '\u0085' || c == '\u00A0'

/-- Python `str.lower` (partial model: ASCII case mapping). -/
def toLowerList (l : List Char) : List Char := l.map Char.toLower

/-- Drop trailing whitespace (the right half of Python `str.strip`). -/
def dropTrailingWs : List Char → List Char
  | [] => []
  | c :: cs =>
    match dropTrailingWs cs with
    | [] => if isWsChar c then [] else [c]
    | d :: ds => c :: d :: ds

/-- Python `str.strip()`. -/
def pyStrip (l : List Char) : List Char := dropTrailingWs (l.dropWhile isWsChar)

/-- Walk of `collapseWs`; the flag records whether the previous character
was whitespace (in which case the run's single space is already emitted). -/
def collapseWsGo : Bool → List Char → List Char
  | _, [] => []
  | inRun, c :: cs =>
    if isWsChar c then
      if inRun then collapseWsGo true cs else ' ' :: collapseWsGo true cs
    else c :: collapseWsGo false cs

/-- Python `re.sub(r"\s+", " ", ·)`: every maximal whitespace run becomes a
single space. -/
def collapseWs (l : List Char) : List Char := collapseWsGo false l

/-- Walk of `pySplitWs`; `acc` is the reversed current word. -/
def pySplitWsGo : List Char → List Char → List (List Char)
  | acc, [] => if acc.isEmpty then [] else [acc.reverse]
  | acc, c :: cs =>
    if isWsChar c then
      if acc.isEmpty then pySplitWsGo [] cs else acc.reverse :: pySplitWsGo [] cs
    else pySplitWsGo (c :: acc) cs

/-- Python `str.split()` (split on whitespace runs, dropping empty pieces). -/
def pySplitWs (l : List Char) : List (List Char) := pySplitWsGo [] l

/-- Substring containment, Python `needle in hay`. -/
def containsSub (w : List Char) : List Char → Bool
  | [] => w.isPrefixOf ([] : List Char)
  | c :: cs => w.isPrefixOf (c :: cs) || containsSub w cs

/-- Remove every (left-to-right, non-overlapping) occurrence of `pat`:
Python `str.replace(pat, "")`. -/
def removeOcc : List Char → List Char → List Char
  | _, [] => []
  | [], l => l
  | p :: ps, c :: cs =>
    if (p :: ps).isPrefixOf (c :: cs) then removeOcc (p :: ps) (cs.drop ps.length)
    else c :: removeOcc (p :: ps) cs
termination_by _ l => l.length
decreasing_by
  · simp only [List.length_cons]
    exact Nat.lt_succ_of_le (List.length_drop ps.length cs ▸ Nat.sub_le _ _)
  · simp

/-! ## Script detection and Unicode normalization -/

/-- The four script values produced by `detect_language`. -/
inductive Script where
  | arabic | hebrew | latin | unknown
deriving DecidableEq

/-- Canonical combining class (partial model of the Unicode Character
Database restricted to the characters this development manipulates; the
listed values are the real UCD values: U+0301 COMBINING ACUTE ACCENT has
ccc 230, U+0316 COMBINING GRAVE ACCENT BELOW has ccc 220, every other
character in scope has ccc 0). -/
def ccc (c : Char) : Nat :=
  if c = '\u0301' then 230 else if c = '\u0316' then 220 else 0

/-- Primary canonical composition pairs (partial model of the UCD: both
listed pairs are real canonical compositions; no other character pair in
this development's scope composes). -/
def composePair (a b : Char) : Option Char :=
  if a = 'a' ∧ b = '\u0301' then some 'á'
  else if a = 'e' ∧ b = '\u0301' then some 'é'
  else none

/-- Canonical composition pass of the NFC algorithm (UAX #15), from the
current starter `starter` with the not-yet-composed combining marks `pending`
behind it.  A combining mark that is not blocked (no mark in `pending` of
greater-or-equal combining class) composes with the starter when the UCD
table allows; a character of combining class 0 always starts a new group
(starter–starter compositions, i.e. Hangul, are outside the modelled
character set). -/
def composeRun (starter : Char) (pending : List Char) : List Char → List Char
  | [] => starter :: pending
  | c :: rest =>
    if ccc c = 0 then starter :: pending ++ composeRun c [] rest
    else if pending.all (fun m => ccc m < ccc c) then
      match composePair starter c with
      | some comp => composeRun comp pending rest
      | none => composeRun starter (pending ++ [c]) rest
    else composeRun starter (pending ++ [c]) rest

/-- Partial model of `unicodedata.normalize("NFC", ·)`: the canonical
composition pass.  Canonical decomposition and reordering are omitted: no
character in this development's scope has a canonical decomposition, and
the inputs analysed carry their combining marks in canonical order. -/
def nfc : List Char → List Char
  | [] => []
  | c :: rest => if ccc c = 0 then composeRun c [] rest else c :: nfc rest

/-- The directional control characters stripped for RTL scripts:
LRM, RLM and the bidi embedding/override range U+202A–U+202E. -/
def bidiControls : List Char :=
  ['\u200E', '\u200F', '\u202A', '\u202B', '\u202C', '\u202D', '\u202E']

/-- Python `normalize_text(text, language)`: NFC, then for Arabic/Hebrew a
strip of directional controls, then whitespace collapse over the stripped
text. -/
def normalize_text (text : List Char) (language : Script := Script.latin) : List Char :=
  if text = [] then text
  else
    let t1 := nfc text
    let t2 :=
      if language = Script.arabic ∨ language = Script.hebrew then
        t1.filter (fun c => !bidiControls.contains c)
      else t1
    collapseWs (pyStrip t2)

/-- Character in the Arabic block U+0600–U+06FF.  (The Python code also
accepts any character whose `unicodedata` name contains "ARABIC"; those
extra presentation-form ranges are outside this model's character scope.) -/
def isArabicChar (c : Char) : Bool := 0x0600 ≤ c.toNat && c.toNat ≤ 0x06FF

/-- Character in the Hebrew block U+0590–U+05FF (same caveat as
`isArabicChar` for the name-based extension). -/
def isHebrewChar (c : Char) : Bool := 0x0590 ≤ c.toNat && c.toNat ≤ 0x05FF

/-- The scanning loop of `detect_language`: skip whitespace and digits, and
let the first Arabic or Hebrew character decide; otherwise Latin. -/
def detectGo : List Char → Script
  | [] => .latin
  | c :: cs =>
    if isWsChar c || c.isDigit then detectGo cs
    else if isArabicChar c then .arabic
    else if isHebrewChar c then .hebrew
    else detectGo cs

/-- Python `detect_language(text)`. -/
def detect_language (text : List Char) : Script :=
  if text = [] ∨ (pyStrip text).length < 10 then .unknown
  else detectGo text

/-! ## Regex model

Each regular expression of the source is transliterated into a matcher in
continuation-passing style over `List Char`.  A matcher combinator tries
every split allowed by its piece of the pattern (existence semantics, which
coincides with Python backtracking for the patterns at hand).  Patterns
searched with `re.IGNORECASE` are run on the lowered text with lowercase
literals. -/

/-- Match the literal `w` here, then continue with `k`. -/
def litHere (w : List Char) (k : List Char → Bool) (l : List Char) : Bool :=
  w.isPrefixOf l && k (l.drop w.length)

/-- Match one character of the class `p` here, then continue with `k`. -/
def classHere (p : Char → Bool) (k : List Char → Bool) : List Char → Bool
  | [] => false
  | c :: cs => p c && k cs

/-- Kleene star of the class `p`, then `k` (tries every split). -/
def starThen (p : Char → Bool) (k : List Char → Bool) : List Char → Bool
  | [] => k []
  | c :: cs => k (c :: cs) || (p c && starThen p k cs)

/-- One-or-more of the class `p`, then `k`. -/
def plusThen (p : Char → Bool) (k : List Char → Bool) : List Char → Bool
  | [] => false
  | c :: cs => p c && starThen p k cs

/-- Exactly `n` characters of the class `p`, then `k`. -/
def repThen (p : Char → Bool) : Nat → (List Char → Bool) → List Char → Bool
  | 0, k, l => k l
  | _ + 1, _, [] => false
  | n + 1, k, c :: cs => p c && repThen p n k cs

/-- At most `n` characters of the class `p`, then `k` (tries every split). -/
def upToThen (p : Char → Bool) : Nat → (List Char → Bool) → List Char → Bool
  | 0, k, l => k l
  | _ + 1, k, [] => k []
  | n + 1, k, c :: cs => k (c :: cs) || (p c && upToThen p n k cs)

/-- Between `lo` and `lo + extra` characters of the class `p`, then `k`. -/
def repRange (p : Char → Bool) (lo extra : Nat) (k : List Char → Bool) : List Char → Bool :=
  repThen p lo (upToThen p extra k)

/-- Alternation over literals, then `k`. -/
def anyLit (ws : List (List Char)) (k : List Char → Bool) (l : List Char) : Bool :=
  ws.any (fun w => litHere w k l)

/-- Trivially succeeding continuation (an unanchored pattern end). -/
def restAny (_ : List Char) : Bool := true

/-- The `$` anchor (end of string; the before-final-newline variant of
Python `$` is outside the inputs in scope). -/
def restEnd (l : List Char) : Bool := l = []

/-- Python `re.search`: the pattern may match at any position. -/
def searchSome (p : List Char → Bool) : List Char → Bool
  | [] => p []
  | c :: cs => p (c :: cs) || searchSome p cs

/-- Regex `\w` (partial model: ASCII word characters). -/
def isWordChar (c : Char) : Bool := c.isAlphanum || c == '_'

/-- Match of the word `w` at this position with a trailing `\b`. -/
def wordAt (w : List Char) (l : List Char) : Bool :=
  w.isPrefixOf l &&
    (match l.drop w.length with
     | [] => true
     | c :: _ => !isWordChar c)

/-- Scan for `\b w \b` keeping track of whether the previous character was a
word character. -/
def hasWordGo (w : List Char) : Bool → List Char → Bool
  | prevW, [] => !prevW && wordAt w []
  | prevW, c :: cs => (!prevW && wordAt w (c :: cs)) || hasWordGo w (isWordChar c) cs

/-- Regex search for `\b(w)\b` (the word alternatives are all word-character
strings, so the boundaries reduce to adjacent non-word characters). -/
def hasWordB (w : List Char) (l : List Char) : Bool := hasWordGo w false l

/-! ## The exclusion patterns of `is_valid_heading`

All are applied through `re.search(pattern, text, re.IGNORECASE)`, hence
evaluated here on the lowered text. -/

/-- Pattern `(address|phone|email|www\.|\.com|http)`. -/
def exclContact (t : List Char) : Bool :=
  ["address", "phone", "email", "www.", ".com", "http"].any
    (fun w => containsSub w.toList t)

/-- Pattern `\d+\s+\w*\s*(street|ave|road|blvd|parkway|way|drive|lane)`. -/
def exclStreet (t : List Char) : Bool :=
  searchSome (plusThen Char.isDigit (plusThen isWsChar (starThen isWordChar
    (starThen isWsChar (anyLit
      (["street", "ave", "road", "blvd", "parkway", "way", "drive", "lane"].map
        String.toList) restAny))))) t

/-- Pattern `^\d{3,5}\s+[A-Z]+\s*(PARKWAY|STREET|AVE|ROAD|BLVD)`
(IGNORECASE makes the classes and literals case-blind). -/
def exclStreetNum (t : List Char) : Bool :=
  repRange Char.isDigit 3 2 (plusThen isWsChar (plusThen Char.isLower
    (starThen isWsChar (anyLit
      (["parkway", "street", "ave", "road", "blvd"].map String.toList) restAny)))) t

/-- Pattern `^[A-Z]{2}\s+\d{5}`. -/
def exclPostal (t : List Char) : Bool :=
  repThen Char.isLower 2 (plusThen isWsChar (repThen Char.isDigit 5 restAny)) t

/-- Pattern `^\(\d{3}\)\s*\d{3}-\d{4}`. -/
def exclPhoneNum (t : List Char) : Bool :=
  litHere ['('] (repThen Char.isDigit 3 (litHere [')'] (starThen isWsChar
    (repThen Char.isDigit 3 (litHere ['-'] (repThen Char.isDigit 4 restAny)))))) t

/-- Pattern `(rsvp|fill|sign|date|name).*[-_]{3,}` (`.` excludes newline). -/
def exclFormField (t : List Char) : Bool :=
  searchSome (anyLit (["rsvp", "fill", "sign", "date", "name"].map String.toList)
    (starThen (fun c => c != '\n')
      (repThen (fun c => c == '-' || c == '_') 3 restAny))) t

/-- Pattern `^(near|on the|in the)\s+`. -/
def exclDirectional (t : List Char) : Bool :=
  anyLit (["near", "on the", "in the"].map String.toList)
    (plusThen isWsChar restAny) t

/-- Pattern `^\d+\s+(pages?|minutes?|hours?|days?|months?|years?)$`. -/
def exclDuration (t : List Char) : Bool :=
  plusThen Char.isDigit (plusThen isWsChar (anyLit
    (["pages", "page", "minutes", "minute", "hours", "hour", "days", "day",
      "months", "month", "years", "year"].map String.toList) restEnd)) t

/-- Pattern `^(page|figure|table|chart|diagram)\s+\d+`. -/
def exclPageRef (t : List Char) : Bool :=
  anyLit (["page", "figure", "table", "chart", "diagram"].map String.toList)
    (plusThen isWsChar (plusThen Char.isDigit restAny)) t

/-- Pattern `^\d+\s*[%$€£¥]`. -/
def exclCurrency (t : List Char) : Bool :=
  plusThen Char.isDigit (starThen isWsChar
    (classHere (fun c => c == '%' || c == '$' || c == '€' || c == '£' || c == '¥')
      restAny)) t

/-- Pattern `^[A-Z]{2,}\s*\d+$`. -/
def exclCode (t : List Char) : Bool :=
  repThen Char.isLower 2 (starThen Char.isLower (starThen isWsChar
    (plusThen Char.isDigit restEnd))) t

/-- Pattern `^(criteria|max|points|total|description)$`. -/
def exclTableHeader (t : List Char) : Bool :=
  anyLit (["criteria", "max", "points", "total", "description"].map String.toList)
    restEnd t

/-- Pattern `^(constraint|requirement)$`. -/
def exclTableHeader2 (t : List Char) : Bool :=
  anyLit (["constraint", "requirement"].map String.toList) restEnd t

/-- Pattern `^\w+\)$`. -/
def exclParenWord (t : List Char) : Bool :=
  plusThen isWordChar (litHere [')'] restEnd) t

/-- Pattern `^(why this matters|the journey ahead|your mission)$`. -/
def exclBoilerplate (t : List Char) : Bool :=
  anyLit (["why this matters", "the journey ahead", "your mission"].map
    String.toList) restEnd t

/-- Pattern `^\d+\.\s+(a|an|the)\s+`. -/
def exclListArticle (t : List Char) : Bool :=
  plusThen Char.isDigit (litHere ['.'] (plusThen isWsChar (anyLit
    (["a", "an", "the"].map String.toList) (plusThen isWsChar restAny)))) t

/-- Pattern `^\d+\.\s+sample\s+`. -/
def exclListSample (t : List Char) : Bool :=
  plusThen Char.isDigit (litHere ['.'] (plusThen isWsChar
    (litHere "sample".toList (plusThen isWsChar restAny)))) t

/-- Pattern `hackathon\d+\.git$`. -/
def exclGitRepo (t : List Char) : Bool :=
  searchSome (litHere "hackathon".toList (plusThen Char.isDigit
    (litHere ".git".toList restEnd))) t

/-- The full ordered exclusion-pattern sweep of `is_valid_heading`, applied
to the lowered text. -/
def exclusionAny (t : List Char) : Bool :=
  exclContact t || exclStreet t || exclStreetNum t || exclPostal t ||
  exclPhoneNum t || exclFormField t || exclDirectional t || exclDuration t ||
  exclPageRef t || exclCurrency t || exclCode t || exclTableHeader t ||
  exclTableHeader2 t || exclParenWord t || exclBoilerplate t ||
  exclListArticle t || exclListSample t || exclGitRepo t

/-- Pattern `^(the|and|or|of|in|on|at|to|for|with|by)$` matched against
`text.lower()`. -/
def stopwordOnly (t : List Char) : Bool :=
  anyLit (["the", "and", "or", "of", "in", "on", "at", "to", "for", "with",
    "by"].map String.toList) restEnd t

/-! ## String classification helpers used by the validator -/

/-- Auxiliary scan of Python `str.istitle` (partial model: ASCII cased
characters): tracks whether the previous character was cased. -/
def pyIsTitleAux : Bool → List Char → Bool
  | _, [] => true
  | prevCased, c :: cs =>
    if c.isUpper then !prevCased && pyIsTitleAux true cs
    else if c.isLower then prevCased && pyIsTitleAux true cs
    else pyIsTitleAux false cs

/-- Python `str.istitle`: at least one cased character, and every maximal
cased run is an uppercase letter followed by lowercase letters. -/
def pyIsTitle (l : List Char) : Bool :=
  l.any (fun c => c.isUpper || c.isLower) && pyIsTitleAux false l

/-- Python `str.isupper`: at least one cased character and no lowercase. -/
def pyIsUpper (l : List Char) : Bool :=
  l.any (fun c => c.isUpper || c.isLower) && l.all (fun c => !c.isLower)

/-- Python `get_semantic_keywords()`. -/
def get_semantic_keywords : List (List Char) :=
  ["introduction", "conclusion", "summary", "overview", "background",
   "methodology", "results", "discussion", "references", "appendix",
   "chapter", "section", "part", "goals", "objectives"].map String.toList

/-! ## Data model -/

/-- A span bounding box `(x0, y0, x1, y1)`. -/
structure Bbox where
  x0 : ℚ
  y0 : ℚ
  x1 : ℚ
  y1 : ℚ
deriving DecidableEq

/-- A raw PDF text span as delivered by the extraction library
(`span["text"]`, `span["size"]`, `span["font"]`, `span["bbox"]`). -/
structure Span where
  text : List Char
  size : ℚ
  font : List Char
  bbox : Bbox
deriving DecidableEq

/-- A line of spans (`line["spans"]`). -/
structure Line where
  spans : List Span
deriving DecidableEq

/-- A block (`block["type"]`, `block["lines"]`). -/
structure Block where
  type : ℤ
  lines : List Line
deriving DecidableEq

/-- A page: `blocksRaw = none` models `page.get_text("dict")` raising (the
`except` of `extract_text_blocks` then yields no blocks), plus the page
height and the plain text returned by `page.get_text()`. -/
structure Page where
  blocksRaw : Option (List Block)
  height : ℚ
  rawText : List Char
deriving DecidableEq

/-- An opened document: its pages (`doc.page_count = pages.length`,
`doc.load_page i = pages[i]`) and its metadata title. -/
structure Doc where
  pages : List Page
  metadata_title : List Char
deriving DecidableEq

/-- The working span dictionaries built by `extract_title_from_pdf`
(`text`, `x_pos`, `y_pos`, `font_size`, `is_bold`, `bbox`); merged groups
have the same keys, so `SpanGroup` is the same shape. -/
structure TextSpan where
  text : List Char
  x_pos : ℚ
  y_pos : ℚ
  font_size : ℚ
  is_bold : Bool
  bbox : Bbox
deriving DecidableEq

/-- Result of `merge_group`: same dictionary shape as `TextSpan`. -/
abbrev SpanGroup := TextSpan

/-- The statistics dictionary built by `analyze_document_structure`.  The
no-body-candidates early return carries only the first three keys, so the
last two are `Option` (`none` = key absent). -/
structure DocumentStats where
  body_size : ℚ
  large_font_threshold : ℚ
  medium_font_threshold : ℚ
  avg_text_length : Option ℚ
  font_sizes : Option (List ℚ)
deriving DecidableEq

/-- Heading levels (the strings "H1"/"H2"/"H3" of the source). -/
inductive HLevel where
  | H1 | H2 | H3
deriving DecidableEq

/-- One outline entry `{"level", "text", "page"}`. -/
structure HeadingEntry where
  level : HLevel
  text : List Char
  page : ℕ
deriving DecidableEq

/-- The per-document result `{"title", "outline"}`. -/
structure OutlineResult where
  title : List Char
  outline : List HeadingEntry
deriving DecidableEq

/-! ## Sorting (Python `sorted`, a stable sort by key) -/

/-- Insert `a` before the first element not strictly `lt`-below it (stable:
`a` lands after earlier equal-key elements). -/
def insertStable (lt : α → α → Bool) (a : α) : List α → List α
  | [] => [a]
  | b :: bs => if lt b a then b :: insertStable lt a bs else a :: b :: bs

/-- Stable insertion sort by the strict comparison `lt`, the model of
Python `sorted(..., key=...)`. -/
def sortStable (lt : α → α → Bool) : List α → List α
  | [] => []
  | a :: rest => insertStable lt a (sortStable lt rest)

/-- Strict key order of `group_text_spans`: key `(y_pos, x_pos)`. -/
def spanPosLt (s t : TextSpan) : Bool :=
  decide (s.y_pos < t.y_pos ∨ (s.y_pos = t.y_pos ∧ s.x_pos < t.x_pos))

/-- Strict key order of the title-candidate sort: key `(-font_size, y_pos)`. -/
def candScanLt (g h : TextSpan) : Bool :=
  decide (g.font_size > h.font_size ∨ (g.font_size = h.font_size ∧ g.y_pos < h.y_pos))

/-! ## The program functions -/

/-- Python `extract_text_blocks(page)`: the `dict` blocks if extraction
succeeded and some type-0 block has lines, else `[]`. -/
def extract_text_blocks (p : Page) : List Block :=
  match p.blocksRaw with
  | none => []
  | some blocks =>
    if !blocks.isEmpty && blocks.any (fun b => b.type == 0 && !b.lines.isEmpty) then blocks
    else []

/-- Python `merge_group(spans)`; `none` for the empty list (the source
returns `None` there, and every caller guards against it). -/
def merge_group : List TextSpan → Option SpanGroup
  | [] => none
  | s :: ss =>
    some { text := List.intercalate [' '] ((s :: ss).map (·.text))
           x_pos := s.x_pos
           y_pos := s.y_pos
           font_size := (ss.map (·.font_size)).foldl max s.font_size
           is_bold := (s :: ss).any (·.is_bold)
           bbox := s.bbox }

/-- The walk of `group_text_spans`: `current` is the open group (never
empty when this is reached from `group_text_spans`); a span joins it when
its vertical distance to the group's last member is within
`line_threshold` and its horizontal gap from that member's right edge is
within `word_threshold`; otherwise the group is merged and a new one
opens.  (The source's `if 'bbox' in last_span` fallback to `x_pos` is dead:
every span dictionary is built with a `bbox` key, so the model reads
`bbox.x1` directly.) -/
def groupGo (line_threshold word_threshold : ℚ) :
    List TextSpan → List SpanGroup → List TextSpan → List SpanGroup
  | current, groups, [] => groups ++ (merge_group current).toList
  | current, groups, span :: rest =>
    let last := current.getLastD span
    let y_diff := |span.y_pos - last.y_pos|
    let x_diff := span.x_pos - last.bbox.x1
    if y_diff ≤ line_threshold ∧ x_diff ≤ word_threshold then
      groupGo line_threshold word_threshold (current ++ [span]) groups rest
    else
      groupGo line_threshold word_threshold [span]
        (groups ++ (merge_group current).toList) rest

/-- Python `group_text_spans(text_spans, line_threshold=5, word_threshold=20)`. -/
def group_text_spans (text_spans : List TextSpan)
    (line_threshold : ℚ := 5) (word_threshold : ℚ := 20) : List SpanGroup :=
  match sortStable spanPosLt text_spans with
  | [] => []
  | s :: rest => groupGo line_threshold word_threshold [s] [] rest

/-- Python `is_text_part_of_title(text, title, title_components)`. -/
def is_text_part_of_title (text title : List Char)
    (title_components : List (List Char)) : Bool :=
  if text.isEmpty || title.isEmpty then false
  else
    let text_clean := collapseWs (toLowerList (pyStrip text))
    let title_clean := collapseWs (toLowerList (pyStrip title))
    if text_clean = title_clean then true
    else if title_components.any (fun comp => text_clean = toLowerList (pyStrip comp)) then
      true
    else if text_clean.length ≥ 8 then
      if containsSub text_clean title_clean ∧
          (text_clean.length : ℚ) ≥ (title_clean.length : ℚ) * 0.4 then true
      else if containsSub title_clean text_clean ∧
          (title_clean.length : ℚ) ≥ (text_clean.length : ℚ) * 0.6 then true
      else false
    else false

/-! ## Heading patterns of the classifier and validator -/

/-- Pattern `^(Chapter|Section|Part|Round)\s+\d+` (IGNORECASE), on the
lowered text. -/
def patChapterRound (t : List Char) : Bool :=
  anyLit (["chapter", "section", "part", "round"].map String.toList)
    (plusThen isWsChar (plusThen Char.isDigit restAny)) t

/-- Pattern `^(Chapter|Section|Part)\s+\d+` (IGNORECASE), the validator's
`has_chapter_pattern`, on the lowered text. -/
def patChapterOnly (t : List Char) : Bool :=
  anyLit (["chapter", "section", "part"].map String.toList)
    (plusThen isWsChar (plusThen Char.isDigit restAny)) t

/-- Pattern `^\d+\.\s+[A-Z]` (case-sensitive). -/
def patNumDotCap (t : List Char) : Bool :=
  plusThen Char.isDigit (litHere ['.'] (plusThen isWsChar
    (classHere Char.isUpper restAny))) t

/-- Pattern `^\d+\.\d+\s+[A-Z]` (case-sensitive). -/
def patNumNumCap (t : List Char) : Bool :=
  plusThen Char.isDigit (litHere ['.'] (plusThen Char.isDigit
    (plusThen isWsChar (classHere Char.isUpper restAny)))) t

/-- Pattern `^\d+\.\d+\.\d+\s+`. -/
def patNumNumNum (t : List Char) : Bool :=
  plusThen Char.isDigit (litHere ['.'] (plusThen Char.isDigit (litHere ['.']
    (plusThen Char.isDigit (plusThen isWsChar restAny))))) t

/-- Search `\b(sample|provided|working|git|dockerfile|solution)\b`
(IGNORECASE), on the lowered text. -/
def blacklistAny (t : List Char) : Bool :=
  ["sample", "provided", "working", "git", "dockerfile", "solution"].any
    (fun w => hasWordB w.toList t)

/-- Pattern `^\d+\.?\s+`, the validator's `has_numbered_section`. -/
def patNumSec (t : List Char) : Bool :=
  plusThen Char.isDigit
    (fun r => litHere ['.'] (plusThen isWsChar restAny) r ||
      plusThen isWsChar restAny r) t

/-- Pattern `^\d+\.`, the long-text escape hatch of the validator. -/
def patNumDotStart (t : List Char) : Bool :=
  plusThen Char.isDigit (litHere ['.'] restAny) t

/-- Python `text.endswith(".")`. -/
def endsWithDot (t : List Char) : Bool := t.getLast? == some '.'

/-- Python `classify_heading_level(text, font_size, is_bold, body_size,
document_stats=None)`. -/
def classify_heading_level (text : List Char) (font_size : ℚ) (is_bold : Bool)
    (body_size : ℚ) (document_stats : Option DocumentStats := none) : HLevel :=
  if patChapterRound (toLowerList text) then .H1
  else if patNumDotCap text then
    let word_count := (pySplitWs text).length
    if word_count > 8 ∨ text.count ',' > 1 ∨ endsWithDot text = true ∨
        blacklistAny (toLowerList text) = true then .H3
    else if word_count ≤ 5 ∧ endsWithDot text = false then .H1
    else .H2
  else if patNumNumCap text then .H2
  else if patNumNumNum text then .H3
  else if body_size > 0 then
    match document_stats with
    | some ds =>
      let font_ratio := font_size / body_size
      let large_font_threshold := ds.large_font_threshold
      let medium_font_threshold := ds.medium_font_threshold
      if font_ratio ≥ large_font_threshold ∨
          (font_ratio ≥ large_font_threshold * 0.9 ∧ is_bold = true) then .H1
      else if font_ratio ≥ medium_font_threshold ∨
          (font_ratio ≥ medium_font_threshold * 0.9 ∧ is_bold = true) then .H2
      else .H3
    | none =>
      let font_ratio := font_size / body_size
      if font_ratio ≥ 1.5 ∨ (font_ratio ≥ 1.3 ∧ is_bold = true) then .H1
      else if font_ratio ≥ 1.2 ∨ (font_ratio ≥ 1.1 ∧ is_bold = true) then .H2
      else .H3
  else
    if is_bold = true ∧ font_size ≥ 14 then .H1
    else if is_bold = true ∨ font_size ≥ 12 then .H2
    else .H3

/-- The characters counted by the validator's punctuation-density filter. -/
def punctChars : List Char := ['.', ',', ';', ':', '!', '?']

/-- The validator's content-feature score (the `content_score` sum of
`is_valid_heading`; it does not depend on font data). -/
def content_score (text : List Char) (language : Script) : ℕ :=
  let word_count := (pySplitWs text).length
  let has_numbered_section := patNumSec text
  let has_chapter_pattern := patChapterOnly (toLowerList text)
  let text_normalized := toLowerList (normalize_text text language)
  let has_semantic_keywords :=
    get_semantic_keywords.any (fun w => containsSub w text_normalized)
  let is_title_case := pyIsTitle text && decide (word_count ≤ 8)
  let is_all_caps := pyIsUpper text && decide (text.length > 3) && decide (text.length < 50)
  let starts_with_capital := match text with | [] => false | c :: _ => c.isUpper
  (if has_chapter_pattern then 6 else 0) + (if has_numbered_section then 4 else 0) +
  (if has_semantic_keywords then 3 else 0) + (if is_title_case then 2 else 0) +
  (if is_all_caps then 2 else 0) + (if starts_with_capital then 1 else 0)

/-- The validator's font ratio: `font_size / body_size if body_size > 0 else 1`. -/
def font_ratio (font_size body_size : ℚ) : ℚ :=
  if body_size > 0 then font_size / body_size else 1

/-- The validator's font-feature score (`is_large_font * 4 +
is_notable_font * 3 + is_bold * 2`, with the document's thresholds or the
1.3/1.2 defaults). -/
def font_score (font_size body_size : ℚ) (is_bold : Bool)
    (document_stats : Option DocumentStats) : ℕ :=
  let r := font_ratio font_size body_size
  let large_threshold :=
    match document_stats with | some ds => ds.large_font_threshold | none => 1.3
  let medium_threshold :=
    match document_stats with | some ds => ds.medium_font_threshold | none => 1.2
  let is_large_font := decide (r ≥ large_threshold)
  let is_notable_font := decide (r ≥ medium_threshold) && is_bold
  (if is_large_font then 4 else 0) + (if is_notable_font then 3 else 0) +
  (if is_bold then 2 else 0)

/-- Python `is_valid_heading(text, font_size, is_bold, body_size,
language='latin', document_stats=None)`. -/
def is_valid_heading (text : List Char) (font_size : ℚ) (is_bold : Bool)
    (body_size : ℚ) (language : Script := Script.latin)
    (document_stats : Option DocumentStats := none) : Bool :=
  if text.isEmpty || decide (text.length < 3) || decide (text.length > 200) then false
  else if stopwordOnly (toLowerList text) then false
  else if exclusionAny (toLowerList text) then false
  else
    let word_count := (pySplitWs text).length
    if decide (word_count > 15) && !patNumDotStart text then false
    else if ((text.filter (fun c => punctChars.contains c)).length : ℚ) /
        (text.length : ℚ) > 0.1 then false
    else
      let required_score : ℕ :=
        if word_count ≤ 5 then 5 else if word_count ≤ 10 then 6 else 7
      decide (content_score text language +
        font_score font_size body_size is_bold document_stats ≥ required_score)

/-! ## Title extraction -/

/-- The span collection of `extract_title_from_pdf` (stripped text kept
when non-empty of length at least 3; bold from the font name). -/
def spanFromRaw (s : Span) : Option TextSpan :=
  let text := pyStrip s.text
  if !text.isEmpty && decide (text.length ≥ 3) then
    some { text := text
           x_pos := s.bbox.x0
           y_pos := s.bbox.y0
           font_size := s.size
           is_bold := containsSub "bold".toList (toLowerList s.font)
           bbox := s.bbox }
  else none

/-- All title-extraction spans of one page, in block/line/span order. -/
def titlePageSpans (p : Page) : List TextSpan :=
  (extract_text_blocks p).flatMap fun b =>
    if b.type == 0 then b.lines.flatMap (fun ln => ln.spans.filterMap spanFromRaw)
    else []

/-- Pattern `^(Page|Chapter|\d+\.?$|Table|Figure|Copyright|©)` (IGNORECASE),
the page-furniture exclusion of the title scan, on the lowered text. -/
def patTitleExclude (t : List Char) : Bool :=
  anyLit (["page", "chapter", "table", "figure", "copyright", "©"].map
    String.toList) restAny t ||
  plusThen Char.isDigit (fun r => restEnd r || litHere ['.'] restEnd r) t

/-- Maximum of a list of rationals (callers only use it on non-empty
lists, mirroring Python `max`). -/
def maxD : List ℚ → ℚ
  | [] => 0
  | c :: cs => cs.foldl max c

/-- The title-candidate filter of `extract_title_from_pdf` (steps d and e:
top 40% of the page, at least 90% of the page's max font, not page
furniture, at least two words and eight characters, and either a
title-affinity substring or exactly the max font). -/
def titleCandidates (page_height max_font : ℚ) (groups : List SpanGroup) :
    List SpanGroup :=
  groups.filter fun g =>
    decide (g.y_pos < page_height * 0.4) &&
    decide (g.font_size ≥ max_font * 0.9) &&
    !patTitleExclude (toLowerList g.text) &&
    decide ((pySplitWs g.text).length ≥ 2) &&
    decide (g.text.length ≥ 8) &&
    (containsSub "challenge".toList (toLowerList g.text) ||
     containsSub "connecting".toList (toLowerList g.text) ||
     containsSub "dots".toList (toLowerList g.text) ||
     decide (g.font_size = max_font))

/-- The title clean-up of `extract_title_from_pdf`: strip, collapse
whitespace, drop straight/curly double quotes, drop every occurrence of
the boilerplate prefix "Welcome to the ". -/
def cleanTitle (text : List Char) : List Char :=
  let t := collapseWs (pyStrip text)
  let t := t.filter (fun c => !(c == '"' || c == '“' || c == '”'))
  removeOcc "Welcome to the ".toList t

/-- The per-page fallback loop of `extract_title_from_pdf` over the first
pages: skip span-less pages, group, filter candidates, sort by
`(-font_size, y_pos)` and take the best. -/
def titleScan : List Page → List Char × List (List Char)
  | [] => ([], [])
  | p :: ps =>
    let text_spans := titlePageSpans p
    if text_spans.isEmpty then titleScan ps
    else
      let grouped := group_text_spans text_spans
      let max_font := maxD (text_spans.map (·.font_size))
      let cands := titleCandidates p.height max_font grouped
      match sortStable candScanLt cands with
      | [] => titleScan ps
      | best :: _ => (cleanTitle best.text, [cleanTitle best.text])

/-- Python `extract_title_from_pdf(doc)`: empty for a page-less document,
else the stripped metadata title when longer than 3 characters, else the
heuristic scan of the first 3 pages. -/
def extract_title_from_pdf (doc : Doc) : List Char × List (List Char) :=
  if doc.pages.length = 0 then ([], [])
  else
    let metadata_title := pyStrip doc.metadata_title
    if metadata_title ≠ [] ∧ metadata_title.length > 3 then
      (metadata_title, [metadata_title])
    else titleScan (doc.pages.take 3)

/-! ## Document structure analysis -/

/-- All spans of the first 5 sampled pages, in traversal order. -/
def sampledSpans (doc : Doc) : List Span :=
  (doc.pages.take 5).flatMap fun p =>
    (extract_text_blocks p).flatMap fun b =>
      if b.type == 0 then b.lines.flatMap (fun ln => ln.spans) else []

/-- The `all_font_sizes` collection of `analyze_document_structure`. -/
def allFontSizes (doc : Doc) : List ℚ := (sampledSpans doc).map (·.size)

/-- The `font_sizes` body-candidate collection (spans whose stripped text
is longer than 10 characters). -/
def bodyFontSizes (doc : Doc) : List ℚ :=
  (sampledSpans doc).filterMap fun s =>
    if (pyStrip s.text).length > 10 then some s.size else none

/-- The `text_lengths` collection (stripped lengths of body candidates). -/
def bodyTextLengths (doc : Doc) : List ℕ :=
  (sampledSpans doc).filterMap fun s =>
    if (pyStrip s.text).length > 10 then some (pyStrip s.text).length else none

/-- Ascending sort of rationals (Python `list.sort()`). -/
def sortQAsc : List ℚ → List ℚ := sortStable (fun a b => decide (a < b))

/-- Descending sort of rationals (Python `sorted(..., reverse=True)`). -/
def sortQDesc : List ℚ → List ℚ := sortStable (fun a b => decide (b < a))

/-- Python `analyze_document_structure(doc)`.  With no body candidates the
source returns the three-key default dictionary (no `avg_text_length`, no
`font_sizes`).  Otherwise: median body size, adaptive thresholds when at
least three distinct sizes exist, mean body-candidate length.  (Python
would raise `ZeroDivisionError` for `body_size = 0`, caught by the
document-level handler; in `ℚ` the division yields 0 instead — no claim
depends on a zero body size.) -/
def analyze_document_structure (doc : Doc) : DocumentStats :=
  let font_sizes := bodyFontSizes doc
  let all_font_sizes := allFontSizes doc
  let text_lengths := bodyTextLengths doc
  if font_sizes.isEmpty then
    { body_size := 12, large_font_threshold := 1.5, medium_font_threshold := 1.2
      avg_text_length := none, font_sizes := none }
  else
    let sorted_sizes := sortQAsc font_sizes
    let body_size := sorted_sizes.getD (sorted_sizes.length / 2) 0
    let unique_sizes := sortQDesc all_font_sizes.dedup
    let thresholds : ℚ × ℚ :=
      if unique_sizes.length ≥ 3 then
        (max 1.4 (unique_sizes.getD 0 0 / body_size * 0.9),
         max 1.2 (unique_sizes.getD 1 0 / body_size * 0.9))
      else (1.5, 1.2)
    let avg_text_length : ℚ :=
      if !text_lengths.isEmpty then
        ((text_lengths.map (fun n => (n : ℚ))).sum) / (text_lengths.length : ℚ)
      else 50
    { body_size := body_size
      large_font_threshold := thresholds.1
      medium_font_threshold := thresholds.2
      avg_text_length := some avg_text_length
      font_sizes := some (unique_sizes.take 5) }

/-! ## The outline pipeline -/

/-- The per-line step of `extract_outline_from_pdf`: join the spans with
non-blank text, compute the line's max size and OR'd bold flag, strip the
joined text, suppress title duplicates, validate and classify. -/
def lineHeading (document_title : List Char) (title_components : List (List Char))
    (body_size : ℚ) (document_language : Script) (doc_structure : DocumentStats)
    (page_num : ℕ) (ln : Line) : Option HeadingEntry :=
  let kept := ln.spans.filter (fun s => !(pyStrip s.text).isEmpty)
  if kept.isEmpty then none
  else
    let text_parts := kept.map (·.text)
    let max_size := (kept.map (·.size)).foldl max 0
    let is_bold := kept.any (fun s => containsSub "bold".toList (toLowerList s.font))
    let text := pyStrip (List.intercalate [' '] text_parts)
    if is_text_part_of_title text document_title title_components then none
    else if is_valid_heading text max_size is_bold body_size document_language
        (some doc_structure) then
      some { level := classify_heading_level text max_size is_bold body_size
               (some doc_structure)
             text := normalize_text text document_language
             page := page_num + 1 }
    else none

/-- The whole per-document analysis of `extract_outline_from_pdf` after a
successful open: title, stats, language sample (first 1000 characters of
the first 3 pages), then the per-line walk over the first 50 pages. -/
def processDoc (doc : Doc) : OutlineResult :=
  let tc := extract_title_from_pdf doc
  let document_title := tc.1
  let title_components := tc.2
  let doc_structure := analyze_document_structure doc
  let body_size := doc_structure.body_size
  let sample_text := (doc.pages.take 3).flatMap (fun p => p.rawText.take 1000)
  let document_language := detect_language sample_text
  let outline :=
    ((doc.pages.take 50).enum).flatMap fun pi =>
      (extract_text_blocks pi.2).flatMap fun b =>
        if b.type == 0 then
          b.lines.filterMap
            (lineHeading document_title title_components body_size
              document_language doc_structure pi.1)
        else []
  { title := document_title, outline := outline }

/-- Python `extract_outline_from_pdf(pdf_path)`.  The argument models the
outcome of `fitz.open`: `Except.error` is an open failure (corrupt or
unreadable document).  The `try/except` of the source catches any failure
and returns the empty result, so the embedding is a total function that
maps the failure case to `{"title": "", "outline": []}`. -/
def extract_outline_from_pdf (opened : Except (List Char) Doc) : OutlineResult :=
  match opened with
  | .ok doc => processDoc doc
  | .error _ => { title := [], outline := [] }

/-- Tier rank of a heading level: H1 is the highest tier. -/
def rank : HLevel → ℕ
  | .H1 => 2
  | .H2 => 1
  | .H3 => 0

/-! ## Normal-form checkers for the NFC model

`normd` holds exactly when the canonical composition pass leaves the string
unchanged: walking the string, every combining mark that is not blocked by
an earlier mark of greater-or-equal class must fail to compose with its
starter.  `cleanAux` characterises the whitespace shape produced by
`collapseWs` over stripped text: every whitespace character is a plain
space followed by a non-whitespace character. -/

/-- Walk of `normd` inside a group with starter `st` and the marks `pend`
seen so far. -/
def normdRun (st : Char) (pend : List Char) : List Char → Bool
  | [] => true
  | c :: rest =>
    if ccc c = 0 then normdRun c [] rest
    else if pend.all (fun m => ccc m < ccc c) then
      (composePair st c).isNone && normdRun st (pend ++ [c]) rest
    else normdRun st (pend ++ [c]) rest

/-- The string is a fixpoint of the composition pass: no unblocked mark
composes with its starter (marks before the first starter are inert). -/
def normd : List Char → Bool
  | [] => true
  | c :: rest => if ccc c = 0 then normdRun c [] rest else normd rest

/-- The checks `normd` performs while re-reading the marks `pend` of a
group with starter `st`, having already re-read `processed`. -/
def pendCheck (st : Char) (processed : List Char) : List Char → Bool
  | [] => true
  | m :: ms =>
    (if processed.all (fun p => ccc p < ccc m) then (composePair st m).isNone
     else true) &&
    pendCheck st (processed ++ [m]) ms

/-- The list starts with a non-whitespace character. -/
def nextNonWs : List Char → Bool
  | [] => false
  | d :: _ => !isWsChar d

/-- Every whitespace character is a plain space followed directly by a
non-whitespace character (so whitespace is single, internal spaces). -/
def cleanAux : List Char → Bool
  | [] => true
  | c :: cs =>
    if isWsChar c then (c == ' ') && nextNonWs cs && cleanAux cs
    else cleanAux cs

/-- The head, when present, is not whitespace. -/
def headNonWs : List Char → Prop
  | [] => True
  | c :: _ => isWsChar c = false

instance : DecidablePred headNonWs := by
  intro l
  cases l <;> simp [headNonWs] <;> infer_instance

/-! ## Claims -/

/-- C1 counterexample: a document with no pages whose metadata title is
"Annual Report 2023" (non-empty, longer than 3 characters) does not get its
metadata title back — `extract_title_from_pdf` returns the empty title
because of the `page_count == 0` guard, so the claim's "regardless of the
document's page count" fails. -/
theorem c1_zero_page_counterexample :
    (pyStrip "Annual Report 2023".toList ≠ [] ∧
      (pyStrip "Annual Report 2023".toList).length > 3) ∧
    extract_title_from_pdf ⟨[], "Annual Report 2023".toList⟩ = ([], []) ∧
    extract_title_from_pdf ⟨[], "Annual Report 2023".toList⟩ ≠
      ("Annual Report 2023".toList, ["Annual Report 2023".toList]) := by
  decide

/-- C1 (amended): for every document with at least one page whose stripped
metadata title is longer than 3 characters, `extract_title_from_pdf`
returns that stripped title as both the title and the sole component —
independently of the page contents, so no page scanning is involved. -/
theorem c1_metadata_title (d : Doc) (h1 : d.pages ≠ [])
    (h2 : (pyStrip d.metadata_title).length > 3) :
    extract_title_from_pdf d =
      (pyStrip d.metadata_title, [pyStrip d.metadata_title]) := by
  have hlen : ¬ d.pages.length = 0 := by
    simpa [List.length_eq_zero] using h1
  have hne : pyStrip d.metadata_title ≠ [] := by
    intro he
    rw [he] at h2
    simp at h2
  simp [extract_title_from_pdf, hlen, hne, h2]

/-- C1 witness: a concrete one-page document with metadata title
"Annual Report 2023". -/
theorem c1_metadata_title_witness :
    ((⟨[⟨none, 100, []⟩], "Annual Report 2023".toList⟩ : Doc).pages ≠ [] ∧
      (pyStrip (⟨[⟨none, 100, []⟩], "Annual Report 2023".toList⟩ : Doc).metadata_title).length > 3) ∧
    extract_title_from_pdf ⟨[⟨none, 100, []⟩], "Annual Report 2023".toList⟩ =
      (pyStrip "Annual Report 2023".toList, [pyStrip "Annual Report 2023".toList]) :=
  ⟨⟨by decide, by decide⟩, c1_metadata_title _ (by decide) (by decide)⟩

/-- C2: `extract_outline_from_pdf` is a total function of the open
outcome; a failed open (the `except` path of the source) always yields the
empty result `{"title": "", "outline": []}`, and a successful open yields
the per-document analysis. -/
theorem c2_never_raises (opened : Except (List Char) Doc) :
    (∃ d, opened = Except.ok d ∧ extract_outline_from_pdf opened = processDoc d) ∨
    extract_outline_from_pdf opened = { title := [], outline := [] } := by
  cases opened with
  | ok d => exact Or.inl ⟨d, rfl, rfl⟩
  | error e => exact Or.inr rfl

/-- C3 counterexample: a document whose only span is short (stripped
length at most 10, so no body candidates) gets the early-return statistics
dictionary, which carries no `avg_text_length` key at all — in particular
not the claimed value 50. -/
theorem c3_avg_counterexample :
    bodyFontSizes ⟨[⟨some [⟨0, [⟨[⟨"short".toList, 10, "Helv".toList, ⟨0, 0, 5, 1⟩⟩]⟩]⟩],
        100, "short".toList⟩], []⟩ = [] ∧
    (analyze_document_structure ⟨[⟨some [⟨0, [⟨[⟨"short".toList, 10, "Helv".toList,
        ⟨0, 0, 5, 1⟩⟩]⟩]⟩], 100, "short".toList⟩], []⟩).avg_text_length = none ∧
    (analyze_document_structure ⟨[⟨some [⟨0, [⟨[⟨"short".toList, 10, "Helv".toList,
        ⟨0, 0, 5, 1⟩⟩]⟩]⟩], 100, "short".toList⟩], []⟩).avg_text_length ≠ some 50 := by
  decide

/-- C3 (amended): with no body-candidate spans,
`analyze_document_structure` returns body size 12 with thresholds 1.5/1.2
and no `avg_text_length` (and no `font_sizes`) entry. -/
theorem c3_default_stats (doc : Doc) (h : bodyFontSizes doc = []) :
    analyze_document_structure doc =
      { body_size := 12, large_font_threshold := 1.5, medium_font_threshold := 1.2
        avg_text_length := none, font_sizes := none } := by
  simp [analyze_document_structure, h]

/-- C3 witness: the concrete short-span document. -/
theorem c3_default_stats_witness :
    bodyFontSizes ⟨[⟨some [⟨0, [⟨[⟨"short".toList, 10, "Helv".toList, ⟨0, 0, 5, 1⟩⟩]⟩]⟩],
        100, "short".toList⟩], []⟩ = [] ∧
    analyze_document_structure ⟨[⟨some [⟨0, [⟨[⟨"short".toList, 10, "Helv".toList,
        ⟨0, 0, 5, 1⟩⟩]⟩]⟩], 100, "short".toList⟩], []⟩ =
      { body_size := 12, large_font_threshold := 1.5, medium_font_threshold := 1.2
        avg_text_length := none, font_sizes := none } :=
  ⟨by decide, c3_default_stats _ (by decide)⟩

/-- C7: the lexical patterns override all font data — "Chapter 1
Introduction" is always H1, "2.1 Background" always H2, "2.1.3 Setup"
always H3. -/
theorem c7_pattern_levels (f : ℚ) (b : Bool) (bs : ℚ) (ds : Option DocumentStats) :
    classify_heading_level "Chapter 1 Introduction".toList f b bs ds = HLevel.H1 ∧
    classify_heading_level "2.1 Background".toList f b bs ds = HLevel.H2 ∧
    classify_heading_level "2.1.3 Setup".toList f b bs ds = HLevel.H3 :=
  ⟨rfl, rfl, rfl⟩

/-- C8: the four excluded texts are rejected by `is_valid_heading` for
every font size, bold flag, body size, script and statistics value. -/
theorem c8_validator_exclusions (f : ℚ) (b : Bool) (bs : ℚ) (lang : Script)
    (ds : Option DocumentStats) :
    is_valid_heading "123 Main Street".toList f b bs lang ds = false ∧
    is_valid_heading "(555) 123-4567".toList f b bs lang ds = false ∧
    is_valid_heading "Page 3".toList f b bs lang ds = false ∧
    is_valid_heading "Table 2".toList f b bs lang ds = false :=
  ⟨rfl, rfl, rfl, rfl⟩

/-- C9: with title "The Connecting Dots Challenge" (its own sole
component), the line reading exactly the title is recognised as part of the
title, while "Connecting the Dots: Round 2" is not. -/
theorem c9_title_membership :
    is_text_part_of_title "The Connecting Dots Challenge".toList
      "The Connecting Dots Challenge".toList
      ["The Connecting Dots Challenge".toList] = true ∧
    is_text_part_of_title "Connecting the Dots: Round 2".toList
      "The Connecting Dots Challenge".toList
      ["The Connecting Dots Challenge".toList] = false := by
  decide

/-- C10: `is_text_part_of_title` is false whenever the title — or the
candidate text — is empty, so in a titleless document no line is ever
suppressed by the title-membership test. -/
theorem c10_empty_title_no_suppression :
    (∀ (text : List Char) (comps : List (List Char)),
      is_text_part_of_title text [] comps = false) ∧
    (∀ (title : List Char) (comps : List (List Char)),
      is_text_part_of_title [] title comps = false) := by
  constructor
  · intro text comps
    simp [is_text_part_of_title]
  · intro title comps
    simp [is_text_part_of_title]

/-- C6: with the default thresholds, the empty input yields the empty
output; two spans (in sorted order, `spanPosLt b a = false`) merge into one
group whenever their y difference is within 5 and the gap from the first's
right edge to the second's x is within 20; and two spans whose y difference
exceeds 5 never merge. -/
theorem c6_two_span_grouping :
    group_text_spans [] = [] ∧
    (∀ a b : TextSpan, spanPosLt b a = false →
      |b.y_pos - a.y_pos| ≤ 5 → b.x_pos - a.bbox.x1 ≤ 20 →
      (group_text_spans [a, b]).length = 1) ∧
    (∀ a b : TextSpan, |a.y_pos - b.y_pos| > 5 →
      (group_text_spans [a, b]).length = 2) := by
  refine ⟨rfl, ?_, ?_⟩
  · intro a b hlt h1 h2
    simp only [group_text_spans, sortStable, insertStable, hlt, if_false,
      Bool.false_eq_true, groupGo, List.getLastD, List.getLast_singleton]
    rw [if_pos (And.intro h1 h2)]
    simp [merge_group]
  · intro a b h
    have habs : |b.y_pos - a.y_pos| > 5 := by
      rw [abs_sub_comm]; exact h
    cases hlt : spanPosLt b a with
    | false =>
      simp only [group_text_spans, sortStable, insertStable, hlt, if_false,
        Bool.false_eq_true, groupGo, List.getLastD, List.getLast_singleton]
      have hcond : ¬ (|b.y_pos - a.y_pos| ≤ 5 ∧ b.x_pos - a.bbox.x1 ≤ 20) := by
        intro hc
        linarith [hc.1, habs]
      rw [if_neg hcond]
      simp [merge_group, groupGo]
    | true =>
      simp only [group_text_spans, sortStable, insertStable, hlt, if_true,
        groupGo, List.getLastD, List.getLast_singleton]
      have hcond : ¬ (|a.y_pos - b.y_pos| ≤ 5 ∧ a.x_pos - b.bbox.x1 ≤ 20) := by
        intro hc
        linarith [hc.1, h]
      rw [if_neg hcond]
      simp [merge_group, groupGo]

/-- C6 witness: concrete close and distant span pairs. -/
theorem c6_two_span_grouping_witness :
    (group_text_spans [⟨"a".toList, 0, 0, 10, false, ⟨0, 0, 5, 1⟩⟩,
        ⟨"b".toList, 10, 2, 10, false, ⟨10, 2, 15, 3⟩⟩]).length = 1 ∧
    (group_text_spans [⟨"a".toList, 0, 0, 10, false, ⟨0, 0, 5, 1⟩⟩,
        ⟨"c".toList, 10, 20, 10, false, ⟨10, 20, 15, 21⟩⟩]).length = 2 :=
  ⟨c6_two_span_grouping.2.1 _ _ (by decide) (by norm_num) (by norm_num),
   c6_two_span_grouping.2.2 _ _ (by norm_num)⟩

/-- Helper: every rank is at most the rank of H1. -/
theorem rank_le_two (x : HLevel) : rank x ≤ 2 := by
  cases x <;> simp [rank]

/-- Helper: an H1/H2/H3 decision tree is rank-monotone when both of its
conditions are implied pointwise. -/
theorem rank_ite_mono {c1 c2 d1 d2 : Prop} [Decidable c1] [Decidable c2]
    [Decidable d1] [Decidable d2] (h1 : c1 → d1) (h2 : c2 → d2) :
    rank (if c1 then HLevel.H1 else if c2 then HLevel.H2 else HLevel.H3) ≤
      rank (if d1 then HLevel.H1 else if d2 then HLevel.H2 else HLevel.H3) := by
  by_cases hc1 : c1
  · rw [if_pos hc1, if_pos (h1 hc1)]
  · rw [if_neg hc1]
    by_cases hd1 : d1
    · rw [if_pos hd1]
      exact rank_le_two _
    · rw [if_neg hd1]
      by_cases hc2 : c2
      · rw [if_pos hc2, if_pos (h2 hc2)]
      · rw [if_neg hc2]
        exact Nat.zero_le _

/-- Helper: the font ratio grows with the font size. -/
theorem font_ratio_mono (bs : ℚ) {f g : ℚ} (h : f ≤ g) :
    font_ratio f bs ≤ font_ratio g bs := by
  unfold font_ratio
  split_ifs with hbs
  · exact (div_le_div_iff_of_pos_right hbs).mpr h
  · exact le_refl 1

/-- Helper: the validator's font score grows with the font size. -/
theorem font_score_mono (bs : ℚ) (b : Bool) (ds : Option DocumentStats)
    {f g : ℚ} (h : f ≤ g) :
    font_score f bs b ds ≤ font_score g bs b ds := by
  have hr := font_ratio_mono bs h
  unfold font_score
  cases ds <;>
  · dsimp only
    refine Nat.add_le_add (Nat.add_le_add ?_ ?_) (le_refl _)
    · split_ifs with hx hy
      · exact le_refl 4
      · exfalso
        exact hy (decide_eq_true (le_trans (of_decide_eq_true hx) hr))
      · exact Nat.zero_le 4
      · exact le_refl 0
    · split_ifs with hx hy
      · exact le_refl 3
      · exfalso
        have hx1 : _ ∧ _ := Bool.and_eq_true_iff.mp hx
        exact hy (Bool.and_eq_true_iff.mpr
          ⟨decide_eq_true (le_trans (of_decide_eq_true hx1.1) hr), hx1.2⟩)
      · exact Nat.zero_le 3
      · exact le_refl 0

/-- Helper: the classified level never drops to a lower tier when only the
font size grows. -/
theorem classify_mono (text : List Char) (b : Bool) (bs : ℚ)
    (ds : Option DocumentStats) {f g : ℚ} (h : f ≤ g) :
    rank (classify_heading_level text f b bs ds) ≤
      rank (classify_heading_level text g b bs ds) := by
  unfold classify_heading_level
  by_cases hc1 : patChapterRound (toLowerList text) = true
  · simp only [if_pos hc1]
    exact le_refl _
  · simp only [if_neg hc1]
    by_cases hc2 : patNumDotCap text = true
    · simp only [if_pos hc2]
      exact le_refl _
    · simp only [if_neg hc2]
      by_cases hc3 : patNumNumCap text = true
      · simp only [if_pos hc3]
        exact le_refl _
      · simp only [if_neg hc3]
        by_cases hc4 : patNumNumNum text = true
        · simp only [if_pos hc4]
          exact le_refl _
        · simp only [if_neg hc4]
          by_cases hbs : bs > 0
          · simp only [if_pos hbs]
            have hr : f / bs ≤ g / bs := (div_le_div_iff_of_pos_right hbs).mpr h
            cases ds with
            | none =>
              dsimp only
              exact rank_ite_mono
                (fun hx => hx.imp (fun h1 => le_trans h1 hr)
                  (fun h1 => ⟨le_trans h1.1 hr, h1.2⟩))
                (fun hx => hx.imp (fun h1 => le_trans h1 hr)
                  (fun h1 => ⟨le_trans h1.1 hr, h1.2⟩))
            | some st =>
              dsimp only
              exact rank_ite_mono
                (fun hx => hx.imp (fun h1 => le_trans h1 hr)
                  (fun h1 => ⟨le_trans h1.1 hr, h1.2⟩))
                (fun hx => hx.imp (fun h1 => le_trans h1 hr)
                  (fun h1 => ⟨le_trans h1.1 hr, h1.2⟩))
          · simp only [if_neg hbs]
            exact rank_ite_mono
              (fun hx => ⟨hx.1, le_trans hx.2 h⟩)
              (fun hx => hx.imp id (fun h1 => le_trans h1 h))

/-- C4: raising only the font size never lowers the validator's total
content-plus-font score and never demotes the classified level to a lower
tier. -/
theorem c4_monotonicity (text : List Char) (b : Bool) (bs : ℚ) (lang : Script)
    (ds : Option DocumentStats) (f g : ℚ) (h : f ≤ g) :
    (content_score text lang + font_score f bs b ds ≤
      content_score text lang + font_score g bs b ds) ∧
    rank (classify_heading_level text f b bs ds) ≤
      rank (classify_heading_level text g b bs ds) :=
  ⟨Nat.add_le_add_left (font_score_mono bs b ds h) _, classify_mono text b bs ds h⟩

/-- C4 witness: a concrete text at font sizes 10 and 12. -/
theorem c4_monotonicity_witness :
    (content_score "Overview".toList Script.latin + font_score 10 10 true none ≤
      content_score "Overview".toList Script.latin + font_score 12 10 true none) ∧
    rank (classify_heading_level "Overview".toList 10 true 10 none) ≤
      rank (classify_heading_level "Overview".toList 12 true 10 none) :=
  c4_monotonicity "Overview".toList true 10 Script.latin none 10 12 (by norm_num)

/-! ## C5: the normalization idempotence theory -/

/-- Table fact: composites have combining class 0. -/
theorem composePair_ccc {a b x : Char} (h : composePair a b = some x) : ccc x = 0 := by
  unfold composePair at h
  split_ifs at h
  · injection h with h
    subst h
    decide
  · injection h with h
    subst h
    decide

/-- Table fact: composites are the two accented letters. -/
theorem composePair_mem_out {a b x : Char} (h : composePair a b = some x) :
    x = 'á' ∨ x = 'é' := by
  unfold composePair at h
  split_ifs at h
  · injection h with h
    exact Or.inl h.symm
  · injection h with h
    exact Or.inr h.symm

/-- Table fact: composites never compose further. -/
theorem composePair_not_key {a b x : Char} (h : composePair a b = some x)
    (d : Char) : composePair x d = none := by
  have hx := composePair_mem_out h
  unfold composePair
  rcases hx with hx | hx <;> subst hx <;>
    rw [if_neg (fun hc => absurd hc.1 (by decide)),
      if_neg (fun hc => absurd hc.1 (by decide))]

/-- Table fact: whitespace has combining class 0. -/
theorem ws_ccc {c : Char} (h : isWsChar c = true) : ccc c = 0 := by
  simp only [isWsChar, Bool.or_eq_true, beq_iff_eq] at h
  rcases h with ((((((h | h) | h) | h) | h) | h) | h) | h <;> subst h <;> decide

/-- Table fact: whitespace never composes with anything. -/
theorem ws_not_key {c : Char} (h : isWsChar c = true) (m : Char) :
    composePair c m = none := by
  simp only [isWsChar, Bool.or_eq_true, beq_iff_eq] at h
  rcases h with ((((((h | h) | h) | h) | h) | h) | h) | h <;> subst h <;>
    simp [composePair]

/-- Table fact: combining marks are not whitespace. -/
theorem mark_not_ws {c : Char} (h : ccc c ≠ 0) : isWsChar c = false := by
  unfold ccc at h
  split_ifs at h with h1 h2
  · subst h1; decide
  · subst h2; decide
  · exact absurd rfl h

/-- A group whose starter composes with nothing re-reads like a fresh
string: the per-mark checks all pass trivially. -/
theorem normdRun_key_free {st : Char} (hks : ∀ m, composePair st m = none) :
    ∀ (X pend : List Char), normdRun st pend X = normd X := by
  intro X
  induction X with
  | nil => intro pend; rfl
  | cons c r ih =>
    intro pend
    by_cases h0 : ccc c = 0
    · simp only [normdRun, normd, if_pos h0]
    · simp only [normdRun, normd, if_neg h0]
      split_ifs with hb
      · simp [hks c, ih]
      · exact ih _

/-- The checks of `normdRun` are prefix-closed. -/
theorem normdRun_of_append :
    ∀ (X Y : List Char) (st : Char) (pend : List Char),
      normdRun st pend (X ++ Y) = true → normdRun st pend X = true := by
  intro X
  induction X with
  | nil => intro Y st pend _; rfl
  | cons c r ih =>
    intro Y st pend h
    rw [List.cons_append] at h
    by_cases h0 : ccc c = 0
    · rw [normdRun, if_pos h0] at h ⊢
      exact ih Y c [] h
    · rw [normdRun, if_neg h0] at h ⊢
      split_ifs at h ⊢ with hb
      · rw [Bool.and_eq_true] at h ⊢
        exact ⟨h.1, ih Y st (pend ++ [c]) h.2⟩
      · exact ih Y st (pend ++ [c]) h

/-- `normd` is prefix-closed. -/
theorem normd_of_append_left :
    ∀ (X Y : List Char), normd (X ++ Y) = true → normd X = true := by
  intro X
  induction X with
  | nil => intro Y _; rfl
  | cons c r ih =>
    intro Y h
    rw [List.cons_append] at h
    by_cases h0 : ccc c = 0
    · rw [normd, if_pos h0] at h ⊢
      exact normdRun_of_append r Y c [] h
    · rw [normd, if_neg h0] at h ⊢
      exact ih Y h

/-- Re-reading a group's marks before fresh input splits into the mark
checks and the rest. -/
theorem normdRun_pend_split (st : Char) :
    ∀ (pend processed X : List Char), (∀ m ∈ pend, ccc m ≠ 0) →
      normdRun st processed (pend ++ X) =
        (pendCheck st processed pend && normdRun st (processed ++ pend) X) := by
  intro pend
  induction pend with
  | nil =>
    intro processed X _
    simp [pendCheck]
  | cons m ms ih =>
    intro processed X hm
    have hm0 : ccc m ≠ 0 := hm m (List.mem_cons_self m ms)
    rw [List.cons_append, normdRun, if_neg hm0]
    have hrest : ∀ x ∈ ms, ccc x ≠ 0 := fun x hx => hm x (List.mem_cons_of_mem m hx)
    rw [pendCheck]
    split_ifs with hb
    · rw [ih (processed ++ [m]) X hrest, Bool.and_assoc, List.append_assoc]
      rfl
    · rw [ih (processed ++ [m]) X hrest, List.append_assoc]
      rfl

/-- All mark checks pass when the starter composes with nothing. -/
theorem pendCheck_key_free {st : Char} (hks : ∀ m, composePair st m = none) :
    ∀ (pend processed : List Char), pendCheck st processed pend = true := by
  intro pend
  induction pend with
  | nil => intro processed; rfl
  | cons m ms ih =>
    intro processed
    rw [pendCheck, hks m]
    split_ifs <;> simpa using ih (processed ++ [m])

/-- Appending one mark to a group's pending list adds exactly one check. -/
theorem pendCheck_snoc (st : Char) :
    ∀ (pend processed : List Char) (c : Char),
      pendCheck st processed (pend ++ [c]) =
        (pendCheck st processed pend &&
          (if (processed ++ pend).all (fun p => ccc p < ccc c) then
            (composePair st c).isNone else true)) := by
  intro pend
  induction pend with
  | nil =>
    intro processed c
    simp [pendCheck]
  | cons m ms ih =>
    intro processed c
    rw [List.cons_append, pendCheck, pendCheck, ih (processed ++ [m]) c,
      List.append_assoc]
    simp [Bool.and_assoc]

/-- The composition pass emits a combining-class-0 head. -/
theorem composeRun_cons_starter :
    ∀ (rest : List Char) (st : Char) (pend : List Char), ccc st = 0 →
      ∃ st2 tl, composeRun st pend rest = st2 :: tl ∧ ccc st2 = 0 := by
  intro rest
  induction rest with
  | nil => intro st pend h; exact ⟨st, pend, rfl, h⟩
  | cons c r ih =>
    intro st pend h
    rw [composeRun]
    split_ifs with h0 hb
    · exact ⟨st, pend ++ composeRun c [] r, rfl, h⟩
    · cases hcp : composePair st c with
      | some comp => exact ih comp pend (composePair_ccc hcp)
      | none => exact ih st (pend ++ [c]) h
    · exact ih st (pend ++ [c]) h

/-- Output of the composition pass is a fixpoint of the pass, given that
the group invariant holds: class-0 starter, real marks, and no unblocked
pending mark composes with the starter. -/
theorem composeRun_normd :
    ∀ (rest : List Char) (st : Char) (pend : List Char), ccc st = 0 →
      (∀ m ∈ pend, ccc m ≠ 0) → pendCheck st [] pend = true →
      normd (composeRun st pend rest) = true := by
  intro rest
  induction rest with
  | nil =>
    intro st pend hst hm hpc
    have hsplit := normdRun_pend_split st pend [] [] hm
    rw [List.append_nil] at hsplit
    rw [composeRun, normd, if_pos hst, hsplit, hpc]
    rfl
  | cons c r ih =>
    intro st pend hst hm hpc
    rw [composeRun]
    split_ifs with h0 hb
    · obtain ⟨st2, tl, heq, hst2⟩ := composeRun_cons_starter r c [] h0
      have hout : normd (composeRun c [] r) = true := ih c [] h0 (by simp) rfl
      rw [heq] at hout
      rw [normd, if_pos hst2] at hout
      rw [heq, List.cons_append, normd, if_pos hst,
        normdRun_pend_split st pend [] (st2 :: tl) hm,
        List.nil_append, hpc, Bool.true_and, normdRun, if_pos hst2]
      exact hout
    · cases hcp : composePair st c with
      | some comp =>
        simp only [hcp]
        exact ih comp pend (composePair_ccc hcp) hm
          (pendCheck_key_free (composePair_not_key hcp) pend [])
      | none =>
        simp only [hcp]
        refine ih st (pend ++ [c]) hst ?_ ?_
        · intro m hmem
          rcases List.mem_append.mp hmem with hmem | hmem
          · exact hm m hmem
          · rw [List.mem_singleton.mp hmem]
            exact h0
        · rw [pendCheck_snoc st pend [] c, hpc, Bool.true_and, List.nil_append,
            if_pos hb, hcp]
          rfl
    · refine ih st (pend ++ [c]) hst ?_ ?_
      · intro m hmem
        rcases List.mem_append.mp hmem with hmem | hmem
        · exact hm m hmem
        · rw [List.mem_singleton.mp hmem]
          exact h0
      · rw [pendCheck_snoc st pend [] c, hpc, Bool.true_and, List.nil_append,
          if_neg hb]

/-- The NFC pass always produces a fixpoint of itself. -/
theorem nfc_normd (l : List Char) : normd (nfc l) = true := by
  induction l with
  | nil => rfl
  | cons c rest ih =>
    rw [nfc]
    split_ifs with h0
    · exact composeRun_normd rest c [] h0 (by simp) rfl
    · rw [normd, if_neg h0]
      exact ih

/-- On a group that re-reads cleanly, the composition pass is the
identity. -/
theorem composeRun_of_normdRun :
    ∀ (rest : List Char) (st : Char) (pend : List Char),
      normdRun st pend rest = true → composeRun st pend rest = st :: (pend ++ rest) := by
  intro rest
  induction rest with
  | nil =>
    intro st pend _
    rw [composeRun, List.append_nil]
  | cons c r ih =>
    intro st pend h
    rw [normdRun] at h
    rw [composeRun]
    split_ifs at h ⊢ with h0 hb
    · rw [ih c [] h, List.nil_append, List.cons_append]
    · rw [Bool.and_eq_true] at h
      cases hcp : composePair st c with
      | some comp =>
        rw [hcp] at h
        exact absurd h.1 (by simp)
      | none =>
        simp only [hcp]
        rw [ih st (pend ++ [c]) h.2, List.append_assoc, List.singleton_append]
    · rw [ih st (pend ++ [c]) h, List.append_assoc, List.singleton_append]

/-- A fixpoint of the composition pass is left unchanged by `nfc`. -/
theorem nfc_of_normd : ∀ (l : List Char), normd l = true → nfc l = l := by
  intro l
  induction l with
  | nil => intro _; rfl
  | cons c rest ih =>
    intro h
    rw [normd] at h
    rw [nfc]
    split_ifs at h ⊢ with h0
    · rw [composeRun_of_normdRun rest c [] h, List.nil_append]
    · rw [ih h]

/-- Dropping leading whitespace preserves normal forms (whitespace
characters are class-0 non-composing starters). -/
theorem normd_dropWhileWs :
    ∀ (l : List Char), normd l = true → normd (l.dropWhile isWsChar) = true := by
  intro l
  induction l with
  | nil => intro _; exact rfl
  | cons c cs ih =>
    intro h
    by_cases hws : isWsChar c = true
    · rw [List.dropWhile_cons_of_pos hws]
      rw [normd, if_pos (ws_ccc hws), normdRun_key_free (ws_not_key hws) cs []] at h
      exact ih h
    · rwa [List.dropWhile_cons_of_neg (by simp [hws])]

/-- `dropTrailingWs` yields a prefix of its input. -/
theorem exists_dropTrailingWs_append :
    ∀ (l : List Char), ∃ s, l = dropTrailingWs l ++ s := by
  intro l
  induction l with
  | nil => exact ⟨[], rfl⟩
  | cons c cs ih =>
    obtain ⟨s, hs⟩ := ih
    rw [dropTrailingWs]
    cases hdt : dropTrailingWs cs with
    | nil =>
      rw [hdt, List.nil_append] at hs
      split_ifs with hws
      · exact ⟨c :: cs, rfl⟩
      · exact ⟨cs, by simp⟩
    | cons d ds =>
      rw [hdt] at hs
      exact ⟨s, by rw [hs]; simp⟩

/-- Dropping trailing whitespace preserves normal forms. -/
theorem normd_dropTrailingWs (l : List Char) (h : normd l = true) :
    normd (dropTrailingWs l) = true := by
  obtain ⟨s, hs⟩ := exists_dropTrailingWs_append l
  rw [hs] at h
  exact normd_of_append_left _ s h

/-- Python strip preserves normal forms. -/
theorem normd_pyStrip (l : List Char) (h : normd l = true) :
    normd (pyStrip l) = true :=
  normd_dropTrailingWs _ (normd_dropWhileWs l h)

/-- Whitespace collapse preserves normal forms, in all three senses needed
for its walk: re-reading an open group, continuing after an emitted space,
and from scratch. -/
theorem collapse_normd :
    ∀ (l : List Char),
      (∀ (st : Char) (pend : List Char), normdRun st pend l = true →
        normdRun st pend (collapseWsGo false l) = true) ∧
      (normd l = true → normd (collapseWsGo true l) = true) ∧
      (normd l = true → normd (collapseWsGo false l) = true) := by
  intro l
  induction l with
  | nil => exact ⟨fun _ _ _ => rfl, fun _ => rfl, fun _ => rfl⟩
  | cons c r ih =>
    by_cases hws : isWsChar c = true
    · have hc0 : ccc c = 0 := ws_ccc hws
      have hsp : isWsChar ' ' = true := by decide
      refine ⟨?_, ?_, ?_⟩
      · intro st pend h
        rw [normdRun, if_pos hc0, normdRun_key_free (ws_not_key hws) r []] at h
        rw [collapseWsGo, if_pos hws, if_neg (by decide : ¬ ((false : Bool) = true))]
        rw [normdRun, if_pos (ws_ccc hsp),
          normdRun_key_free (ws_not_key hsp) (collapseWsGo true r) []]
        exact (ih.2.1) h
      · intro h
        rw [normd, if_pos hc0, normdRun_key_free (ws_not_key hws) r []] at h
        rw [collapseWsGo, if_pos hws]
        exact (ih.2.1) h
      · intro h
        rw [normd, if_pos hc0, normdRun_key_free (ws_not_key hws) r []] at h
        rw [collapseWsGo, if_pos hws, if_neg (by decide : ¬ ((false : Bool) = true))]
        rw [normd, if_pos (ws_ccc hsp),
          normdRun_key_free (ws_not_key hsp) (collapseWsGo true r) []]
        exact (ih.2.1) h
    · have hws0 : isWsChar c = false := by simpa using hws
      refine ⟨?_, ?_, ?_⟩
      · intro st pend h
        rw [collapseWsGo, if_neg (by simp [hws0])]
        by_cases h0 : ccc c = 0
        · rw [normdRun, if_pos h0] at h
          rw [normdRun, if_pos h0]
          exact ih.1 c [] h
        · rw [normdRun, if_neg h0] at h
          rw [normdRun, if_neg h0]
          split_ifs at h ⊢ with hb
          · rw [Bool.and_eq_true] at h ⊢
            exact ⟨h.1, ih.1 st (pend ++ [c]) h.2⟩
          · exact ih.1 st (pend ++ [c]) h
      · intro h
        rw [collapseWsGo, if_neg (by simp [hws0])]
        by_cases h0 : ccc c = 0
        · rw [normd, if_pos h0] at h
          rw [normd, if_pos h0]
          exact ih.1 c [] h
        · rw [normd, if_neg h0] at h
          rw [normd, if_neg h0]
          exact ih.2.2 h
      · intro h
        rw [collapseWsGo, if_neg (by simp [hws0])]
        by_cases h0 : ccc c = 0
        · rw [normd, if_pos h0] at h
          rw [normd, if_pos h0]
          exact ih.1 c [] h
        · rw [normd, if_neg h0] at h
          rw [normd, if_neg h0]
          exact ih.2.2 h

/-- Whitespace collapse preserves normal forms. -/
theorem normd_collapseWs (l : List Char) (h : normd l = true) :
    normd (collapseWs l) = true :=
  (collapse_normd l).2.2 h

/-- The head surviving a whitespace drop is not whitespace. -/
theorem dropWhileWs_head :
    ∀ (l : List Char) (c : Char) (cs : List Char),
      l.dropWhile isWsChar = c :: cs → isWsChar c = false := by
  intro l
  induction l with
  | nil => intro c cs h; simp at h
  | cons d ds ih =>
    intro c cs h
    by_cases hws : isWsChar d = true
    · rw [List.dropWhile_cons_of_pos hws] at h
      exact ih c cs h
    · rw [List.dropWhile_cons_of_neg (by simp [hws])] at h
      cases h
      simpa using hws

/-- `dropTrailingWs` keeps the head when its output is non-empty. -/
theorem dropTrailingWs_head :
    ∀ (l : List Char) (c : Char) (cs : List Char),
      dropTrailingWs l = c :: cs → ∃ cs0, l = c :: cs0 := by
  intro l
  induction l with
  | nil => intro c cs h; simp [dropTrailingWs] at h
  | cons d ds _ =>
    intro c cs h
    rw [dropTrailingWs] at h
    cases hdt : dropTrailingWs ds with
    | nil =>
      rw [hdt] at h
      split_ifs at h
      cases h
      exact ⟨ds, rfl⟩
    | cons e es =>
      rw [hdt] at h
      cases h
      exact ⟨ds, rfl⟩

/-- The last character left by `dropTrailingWs` is not whitespace. -/
theorem dropTrailingWs_getLast :
    ∀ (l : List Char) (c : Char),
      (dropTrailingWs l).getLast? = some c → isWsChar c = false := by
  intro l
  induction l with
  | nil => intro c h; simp [dropTrailingWs] at h
  | cons d ds ih =>
    intro c h
    cases hdt : dropTrailingWs ds with
    | nil =>
      simp only [dropTrailingWs, hdt] at h
      split_ifs at h with hws
      · simp at h
      · simp only [List.getLast?] at h
        injection h with h
        rw [← h]
        simpa using hws
    | cons e es =>
      simp only [dropTrailingWs, hdt] at h
      rw [List.getLast?_cons_cons, ← hdt] at h
      exact ih c h

/-- The last element, when present, is a member. -/
theorem getLast?_mem_self {l : List Char} {c : Char} (h : l.getLast? = some c) :
    c ∈ l := by
  obtain ⟨hne, hc⟩ := List.mem_getLast?_eq_getLast (by rw [Option.mem_def]; exact h)
  rw [hc]
  exact List.getLast_mem hne

/-- After an emitted space, the collapse walk next emits the first
non-whitespace character. -/
theorem collapseWsGo_true_head :
    ∀ (r : List Char), (∃ d ∈ r, isWsChar d = false) →
      ∃ d ds, collapseWsGo true r = d :: ds ∧ isWsChar d = false := by
  intro r
  induction r with
  | nil => intro h; simp at h
  | cons e es ih =>
    intro h
    by_cases hws : isWsChar e = true
    · rw [collapseWsGo, if_pos hws, if_pos rfl]
      refine ih ?_
      obtain ⟨d, hd, hdw⟩ := h
      rcases List.mem_cons.mp hd with hd | hd
      · rw [hd] at hdw
        rw [hdw] at hws
        cases hws
      · exact ⟨d, hd, hdw⟩
    · rw [collapseWsGo, if_neg (by simp [hws])]
      exact ⟨e, collapseWsGo false es, rfl, by simpa using hws⟩

/-- Collapsing a string whose last character is not whitespace yields the
clean whitespace shape. -/
theorem cleanAux_collapseWsGo :
    ∀ (l : List Char) (flag : Bool),
      (∀ c, l.getLast? = some c → isWsChar c = false) →
      cleanAux (collapseWsGo flag l) = true := by
  intro l
  induction l with
  | nil => intro flag _; cases flag <;> rfl
  | cons c r ih =>
    intro flag hlast
    by_cases hws : isWsChar c = true
    · cases r with
      | nil =>
        have := hlast c (by simp [List.getLast?])
        rw [this] at hws
        cases hws
      | cons d ds =>
        have hlast2 : ∀ x, (d :: ds).getLast? = some x → isWsChar x = false := by
          intro x hx
          exact hlast x (by rwa [List.getLast?_cons_cons])
        have hwit : ∃ x ∈ d :: ds, isWsChar x = false := by
          cases hgl : (d :: ds).getLast? with
          | none =>
            exact absurd (List.getLast?_eq_none_iff.mp hgl) (List.cons_ne_nil d ds)
          | some x =>
            exact ⟨x, getLast?_mem_self hgl, hlast2 x hgl⟩
        cases flag with
        | true =>
          rw [collapseWsGo, if_pos hws, if_pos rfl]
          exact ih true hlast2
        | false =>
          rw [collapseWsGo, if_pos hws,
            if_neg (by decide : ¬ ((false : Bool) = true))]
          obtain ⟨x, xs, hxeq, hxw⟩ := collapseWsGo_true_head (d :: ds) hwit
          rw [cleanAux, if_pos (by decide : isWsChar ' ' = true)]
          have h1 : nextNonWs (collapseWsGo true (d :: ds)) = true := by
            rw [hxeq, nextNonWs, hxw]
            rfl
          rw [h1, ih true hlast2]
          rfl
    · have hlast2 : ∀ x, r.getLast? = some x → isWsChar x = false := by
        intro x hx
        cases r with
        | nil => simp at hx
        | cons d ds => exact hlast x (by rwa [List.getLast?_cons_cons])
      cases flag with
      | true =>
        rw [collapseWsGo, if_neg (by simp [hws])]
        rw [cleanAux, if_neg (by simp [hws])]
        exact ih false hlast2
      | false =>
        rw [collapseWsGo, if_neg (by simp [hws])]
        rw [cleanAux, if_neg (by simp [hws])]
        exact ih false hlast2

/-- In the clean whitespace shape, the last character is not whitespace. -/
theorem cleanAux_getLast :
    ∀ (l : List Char) (c : Char), cleanAux l = true → l.getLast? = some c →
      isWsChar c = false := by
  intro l
  induction l with
  | nil => intro c _ h; simp at h
  | cons d ds ih =>
    intro c hcl hgl
    have hcl2 : cleanAux ds = true := by
      rw [cleanAux] at hcl
      split_ifs at hcl with hws
      · rw [Bool.and_eq_true] at hcl
        exact hcl.2
      · exact hcl
    cases ds with
    | nil =>
      simp only [List.getLast?] at hgl
      injection hgl with hgl
      rw [cleanAux] at hcl
      split_ifs at hcl with hws
      · rw [Bool.and_eq_true, Bool.and_eq_true] at hcl
        have := hcl.1.2
        rw [nextNonWs] at this
        cases this
      · rw [← hgl]
        simpa using hws
    | cons e es =>
      rw [List.getLast?_cons_cons] at hgl
      exact ih c hcl2 hgl

/-- On the clean whitespace shape the collapse walk is the identity (and
also from the after-space state when the head is not whitespace). -/
theorem collapseWsGo_of_cleanAux :
    ∀ (l : List Char), cleanAux l = true →
      collapseWsGo false l = l ∧ (headNonWs l → collapseWsGo true l = l) := by
  intro l
  induction l with
  | nil => intro _; exact ⟨rfl, fun _ => rfl⟩
  | cons c cs ih =>
    intro hcl
    by_cases hws : isWsChar c = true
    · rw [cleanAux, if_pos hws, Bool.and_eq_true, Bool.and_eq_true] at hcl
      obtain ⟨⟨hsp, hnext⟩, hcl2⟩ := hcl
      have hspc : c = ' ' := by simpa using hsp
      obtain ⟨d, es, hcseq, hdw⟩ : ∃ d es, cs = d :: es ∧ isWsChar d = false := by
        cases cs with
        | nil =>
          rw [nextNonWs] at hnext
          cases hnext
        | cons d es =>
          rw [nextNonWs] at hnext
          exact ⟨d, es, rfl, by simpa using hnext⟩
      have hhd : headNonWs cs := by
        rw [hcseq]
        exact hdw
      have htrue : collapseWsGo true cs = cs := (ih hcl2).2 hhd
      refine ⟨?_, ?_⟩
      · rw [collapseWsGo, if_pos hws,
          if_neg (by decide : ¬ ((false : Bool) = true)), htrue, hspc]
      · intro hhead
        have h2 : isWsChar c = false := hhead
        rw [h2] at hws
        cases hws
    · have hws0 : isWsChar c = false := by simpa using hws
      rw [cleanAux, if_neg (by simp [hws0])] at hcl
      have hfalse : collapseWsGo false cs = cs := (ih hcl).1
      constructor
      · rw [collapseWsGo, if_neg (by simp [hws0]), hfalse]
      · intro _
        rw [collapseWsGo, if_neg (by simp [hws0]), hfalse]

/-- A list whose last character is not whitespace loses nothing to
`dropTrailingWs`. -/
theorem dropTrailingWs_of_lastNonWs :
    ∀ (l : List Char), (∀ c, l.getLast? = some c → isWsChar c = false) →
      dropTrailingWs l = l := by
  intro l
  induction l with
  | nil => intro _; rfl
  | cons d ds ih =>
    intro h
    cases ds with
    | nil =>
      have hd := h d (by simp [List.getLast?])
      rw [dropTrailingWs, dropTrailingWs]
      rw [hd]
      rfl
    | cons e es =>
      have hds : dropTrailingWs (e :: es) = e :: es := by
        refine ih ?_
        intro c hc
        exact h c (by rwa [List.getLast?_cons_cons])
      rw [dropTrailingWs, hds]

/-- On the clean whitespace shape with a non-whitespace head, Python strip
is the identity. -/
theorem pyStrip_of_cleanAux (l : List Char) (hcl : cleanAux l = true)
    (hhd : headNonWs l) : pyStrip l = l := by
  have hdw : l.dropWhile isWsChar = l := by
    cases l with
    | nil => rfl
    | cons c cs =>
      have h2 : isWsChar c = false := hhd
      exact List.dropWhile_cons_of_neg (by simp [h2])
  rw [pyStrip, hdw]
  exact dropTrailingWs_of_lastNonWs l (fun c hc => cleanAux_getLast l c hcl hc)

/-- The output of strip-then-collapse has the clean whitespace shape. -/
theorem cleanAux_collapse_pyStrip (x : List Char) :
    cleanAux (collapseWs (pyStrip x)) = true := by
  rw [collapseWs]
  refine cleanAux_collapseWsGo (pyStrip x) false ?_
  intro c hc
  exact dropTrailingWs_getLast (x.dropWhile isWsChar) c hc

/-- The output of strip-then-collapse has a non-whitespace head. -/
theorem headNonWs_collapse_pyStrip (x : List Char) :
    headNonWs (collapseWs (pyStrip x)) := by
  rw [collapseWs]
  cases hps : pyStrip x with
  | nil => exact trivial
  | cons c cs =>
    have hcw : isWsChar c = false := by
      obtain ⟨cs0, hcs0⟩ := dropTrailingWs_head (x.dropWhile isWsChar) c cs hps
      exact dropWhileWs_head x c cs0 hcs0
    rw [collapseWsGo, if_neg (by simp [hcw])]
    exact hcw

/-- Characters of the composition pass output come from the input or are
composite accented letters. -/
theorem mem_composeRun :
    ∀ (rest : List Char) (st : Char) (pend : List Char) (x : Char),
      x ∈ composeRun st pend rest →
      x = st ∨ x ∈ pend ∨ x ∈ rest ∨ x = 'á' ∨ x = 'é' := by
  intro rest
  induction rest with
  | nil =>
    intro st pend x hx
    rw [composeRun] at hx
    rcases List.mem_cons.mp hx with hx | hx
    · exact Or.inl hx
    · exact Or.inr (Or.inl hx)
  | cons c r ih =>
    intro st pend x hx
    rw [composeRun] at hx
    split_ifs at hx with h0 hb
    · rcases List.mem_cons.mp hx with hx | hx
      · exact Or.inl hx
      · rcases List.mem_append.mp hx with hx | hx
        · exact Or.inr (Or.inl hx)
        · rcases ih c [] x hx with hx | hx | hx | hx
          · exact Or.inr (Or.inr (Or.inl (by rw [hx]; exact List.mem_cons_self c r)))
          · simp at hx
          · exact Or.inr (Or.inr (Or.inl (List.mem_cons_of_mem c hx)))
          · exact Or.inr (Or.inr (Or.inr hx))
    · cases hcp : composePair st c with
      | some comp =>
        rw [hcp] at hx
        rcases ih comp pend x hx with hx | hx | hx | hx
        · rcases composePair_mem_out hcp with hc | hc
          · exact Or.inr (Or.inr (Or.inr (Or.inl (hx.trans hc))))
          · exact Or.inr (Or.inr (Or.inr (Or.inr (hx.trans hc))))
        · exact Or.inr (Or.inl hx)
        · exact Or.inr (Or.inr (Or.inl (List.mem_cons_of_mem c hx)))
        · exact Or.inr (Or.inr (Or.inr hx))
      | none =>
        rw [hcp] at hx
        rcases ih st (pend ++ [c]) x hx with hx | hx | hx | hx
        · exact Or.inl hx
        · rcases List.mem_append.mp hx with hx | hx
          · exact Or.inr (Or.inl hx)
          · exact Or.inr (Or.inr (Or.inl (by
              rw [List.mem_singleton.mp hx]; exact List.mem_cons_self c r)))
        · exact Or.inr (Or.inr (Or.inl (List.mem_cons_of_mem c hx)))
        · exact Or.inr (Or.inr (Or.inr hx))
    · rcases ih st (pend ++ [c]) x hx with hx | hx | hx | hx
      · exact Or.inl hx
      · rcases List.mem_append.mp hx with hx | hx
        · exact Or.inr (Or.inl hx)
        · exact Or.inr (Or.inr (Or.inl (by
            rw [List.mem_singleton.mp hx]; exact List.mem_cons_self c r)))
      · exact Or.inr (Or.inr (Or.inl (List.mem_cons_of_mem c hx)))
      · exact Or.inr (Or.inr (Or.inr hx))

/-- Characters of the NFC output come from the input or are composite
accented letters. -/
theorem mem_nfc :
    ∀ (l : List Char) (x : Char), x ∈ nfc l → x ∈ l ∨ x = 'á' ∨ x = 'é' := by
  intro l
  induction l with
  | nil => intro x hx; simp [nfc] at hx
  | cons c rest ih =>
    intro x hx
    rw [nfc] at hx
    split_ifs at hx with h0
    · rcases mem_composeRun rest c [] x hx with hx | hx | hx | hx
      · exact Or.inl (by rw [hx]; exact List.mem_cons_self c rest)
      · simp at hx
      · exact Or.inl (List.mem_cons_of_mem c hx)
      · exact Or.inr hx
    · rcases List.mem_cons.mp hx with hx | hx
      · exact Or.inl (by rw [hx]; exact List.mem_cons_self c rest)
      · rcases ih x hx with hx | hx
        · exact Or.inl (List.mem_cons_of_mem c hx)
        · exact Or.inr hx

/-- Characters of the collapse output come from the input or are spaces. -/
theorem mem_collapseWsGo :
    ∀ (l : List Char) (flag : Bool) (x : Char),
      x ∈ collapseWsGo flag l → x ∈ l ∨ x = ' ' := by
  intro l
  induction l with
  | nil => intro flag x hx; cases flag <;> simp [collapseWsGo] at hx
  | cons c cs ih =>
    intro flag x hx
    rw [collapseWsGo] at hx
    split_ifs at hx with hws hflag
    · rcases ih true x hx with hx | hx
      · exact Or.inl (List.mem_cons_of_mem c hx)
      · exact Or.inr hx
    · rcases List.mem_cons.mp hx with hx | hx
      · exact Or.inr hx
      · rcases ih true x hx with hx | hx
        · exact Or.inl (List.mem_cons_of_mem c hx)
        · exact Or.inr hx
    · rcases List.mem_cons.mp hx with hx | hx
      · exact Or.inl (by rw [hx]; exact List.mem_cons_self c cs)
      · rcases ih false x hx with hx | hx
        · exact Or.inl (List.mem_cons_of_mem c hx)
        · exact Or.inr hx

/-- Characters of the stripped string come from the input. -/
theorem mem_pyStrip :
    ∀ (l : List Char) (x : Char), x ∈ pyStrip l → x ∈ l := by
  intro l x hx
  rw [pyStrip] at hx
  obtain ⟨s, hs⟩ := exists_dropTrailingWs_append (l.dropWhile isWsChar)
  have hx2 : x ∈ l.dropWhile isWsChar := by
    rw [hs]
    exact List.mem_append_left s hx
  exact (List.dropWhile_suffix isWsChar).mem hx2

/-- When the script does not strip (not RTL), or the input carries no
directional controls, `normalize_text` is collapse-strip over the NFC
pass. -/
theorem normalize_text_nfc_eq (s : List Char) (script : Script) (hs : s ≠ [])
    (h : (script ≠ Script.arabic ∧ script ≠ Script.hebrew) ∨
      ∀ c ∈ s, c ∉ bidiControls) :
    normalize_text s script = collapseWs (pyStrip (nfc s)) := by
  rw [normalize_text, if_neg hs]
  show collapseWs (pyStrip
    (if script = Script.arabic ∨ script = Script.hebrew then
      (nfc s).filter (fun c => !bidiControls.contains c) else nfc s)) =
    collapseWs (pyStrip (nfc s))
  by_cases hscr : script = Script.arabic ∨ script = Script.hebrew
  · rw [if_pos hscr]
    have hbidi : ∀ c ∈ s, c ∉ bidiControls := by
      rcases h with ⟨h1, h2⟩ | h2
      · rcases hscr with hscr | hscr
        · exact absurd hscr h1
        · exact absurd hscr h2
      · exact h2
    have hfilter : (nfc s).filter (fun c => !bidiControls.contains c) = nfc s := by
      refine List.filter_eq_self.mpr ?_
      intro a ha
      rcases mem_nfc s a ha with ha2 | ha2 | ha2
      · simpa using hbidi a ha2
      · rw [ha2]; decide
      · rw [ha2]; decide
    rw [hfilter]
  · rw [if_neg hscr]

/-- C5 (amended): `normalize_text` is idempotent whenever the script is not
Arabic/Hebrew, or the input carries no bidi directional controls (so the
RTL stripping step cannot expose a new canonical composition). -/
theorem c5_idempotent_cases (s : List Char) (script : Script)
    (h : (script ≠ Script.arabic ∧ script ≠ Script.hebrew) ∨
      ∀ c ∈ s, c ∉ bidiControls) :
    normalize_text (normalize_text s script) script = normalize_text s script := by
  by_cases hs : s = []
  · subst hs
    rfl
  · have hkey := normalize_text_nfc_eq s script hs h
    have hnormd : normd (collapseWs (pyStrip (nfc s))) = true :=
      normd_collapseWs _ (normd_pyStrip _ (nfc_normd s))
    have hclean : cleanAux (collapseWs (pyStrip (nfc s))) = true :=
      cleanAux_collapse_pyStrip (nfc s)
    have hhead : headNonWs (collapseWs (pyStrip (nfc s))) :=
      headNonWs_collapse_pyStrip (nfc s)
    rw [hkey]
    by_cases hre : collapseWs (pyStrip (nfc s)) = []
    · rw [hre]
      rfl
    · have hnfcr : nfc (collapseWs (pyStrip (nfc s))) = collapseWs (pyStrip (nfc s)) :=
        nfc_of_normd _ hnormd
      have hfixs : pyStrip (collapseWs (pyStrip (nfc s))) = collapseWs (pyStrip (nfc s)) :=
        pyStrip_of_cleanAux _ hclean hhead
      have hcoll : collapseWs (collapseWs (pyStrip (nfc s))) = collapseWs (pyStrip (nfc s)) := by
        rw [collapseWs]
        exact (collapseWsGo_of_cleanAux _ hclean).1
      rw [normalize_text, if_neg hre]
      show collapseWs (pyStrip
        (if script = Script.arabic ∨ script = Script.hebrew then
          (nfc (collapseWs (pyStrip (nfc s)))).filter
            (fun c => !bidiControls.contains c)
         else nfc (collapseWs (pyStrip (nfc s))))) =
        collapseWs (pyStrip (nfc s))
      by_cases hscr : script = Script.arabic ∨ script = Script.hebrew
      · have hbidi_s : ∀ c ∈ s, c ∉ bidiControls := by
          rcases h with ⟨h1, h2⟩ | h2
          · rcases hscr with hscr | hscr
            · exact absurd hscr h1
            · exact absurd hscr h2
          · exact h2
        have hbidi_r : ∀ c ∈ collapseWs (pyStrip (nfc s)), c ∉ bidiControls := by
          intro c hc
          rw [collapseWs] at hc
          rcases mem_collapseWsGo (pyStrip (nfc s)) false c hc with hc | hc
          · rcases mem_nfc s c (mem_pyStrip (nfc s) c hc) with hc2 | hc2 | hc2
            · exact hbidi_s c hc2
            · rw [hc2]; decide
            · rw [hc2]; decide
          · rw [hc]; decide
        have hfilter : (collapseWs (pyStrip (nfc s))).filter
            (fun c => !bidiControls.contains c) = collapseWs (pyStrip (nfc s)) := by
          refine List.filter_eq_self.mpr ?_
          intro a ha
          simpa using hbidi_r a ha
        rw [if_pos hscr, hnfcr, hfilter, hfixs, hcoll]
      · rw [if_neg hscr, hnfcr, hfixs, hcoll]

/-- C5 counterexample: with script `arabic`, the input "a", LRM,
COMBINING ACUTE ACCENT normalizes once to "a"+acute (the LRM blocks the
composition under NFC and is then stripped), but a second pass composes
the now-adjacent pair to the precomposed letter — so
`normalize_text` is not idempotent as claimed. -/
theorem c5_not_idempotent_counterexample :
    normalize_text ['a', '\u200E', '\u0301'] Script.arabic = ['a', '\u0301'] ∧
    normalize_text (normalize_text ['a', '\u200E', '\u0301'] Script.arabic)
      Script.arabic = ['á'] ∧
    normalize_text (normalize_text ['a', '\u200E', '\u0301'] Script.arabic)
      Script.arabic ≠
      normalize_text ['a', '\u200E', '\u0301'] Script.arabic := by
  decide

/-- C5 witness: a concrete bidi-free string under the Arabic script. -/
theorem c5_idempotent_cases_witness :
    (∀ c ∈ "Annual  Report 2023".toList, c ∉ bidiControls) ∧
    normalize_text (normalize_text "Annual  Report 2023".toList Script.arabic)
      Script.arabic =
      normalize_text "Annual  Report 2023".toList Script.arabic :=
  ⟨by decide, c5_idempotent_cases _ _ (Or.inr (by decide))⟩
